import Mathlib

/-!
Verification of the feature-registration and dispatch core of `my-groupme-bot`
(`src/index.js`), a webhook-driven GroupMe chat-bot module.

JavaScript strings are modelled as `List Char` (`JStr`); the regular expressions
the source constructs (`quote`-escaped literals, the command regex
`^/<name>(\s|$)` and the separators fed to `String.prototype.split`) are
modelled by executable functions that follow ECMAScript semantics for exactly
those patterns, including the `lastIndex` state of a regex carrying the `g`
flag.  Fallible JavaScript evaluation (TypeError on calling `.trim()` of
`undefined`, exceptions thrown by responders) is modelled with `Except` /
explicit error flags.
-/

namespace GroupmeBot

/-- JavaScript strings, modelled as their list of UTF-16 / scalar characters. -/
abbrev JStr := List Char

/-- Shorthand turning a Lean string literal into the `JStr` model. -/
def js (s : String) : JStr := s.toList

/-- The characters matched by the ECMAScript RegExp class `\s`
(WhiteSpace ∪ LineTerminator); this is also exactly the set removed by
`String.prototype.trim`. -/
def isJsSpace (c : Char) : Bool :=
  c.toNat = 0x09 || c.toNat = 0x0A || c.toNat = 0x0B || c.toNat = 0x0C ||
  c.toNat = 0x0D || c.toNat = 0x20 || c.toNat = 0xA0 || c.toNat = 0x1680 ||
  (0x2000 ≤ c.toNat && c.toNat ≤ 0x200A) ||
  c.toNat = 0x2028 || c.toNat = 0x2029 || c.toNat = 0x202F ||
  c.toNat = 0x205F || c.toNat = 0x3000 || c.toNat = 0xFEFF

/-- Models `String.prototype.trim`: strip leading and trailing JS whitespace. -/
def jsTrim (s : JStr) : JStr :=
  ((s.dropWhile isJsSpace).reverse.dropWhile isJsSpace).reverse

/-- The regex metacharacters escaped by `quote` (src/index.js:53-55):
the character class `[.?*+^$[\]\\(){}|-]`. -/
def isMetaChar (c : Char) : Bool :=
  c = '.' || c = '?' || c = '*' || c = '+' || c = '^' || c = '$' ||
  c = '[' || c = ']' || c = '\\' || c = '(' || c = ')' ||
  c = '\x7b' || c = '\x7d' || c = '|' || c = '-'

/-- Models `quote` (src/index.js:53-55):
`str.replace(/[.?*+^$[\]\\(){}|-]/g, '\\$&')`, i.e. prefix every regex
metacharacter with a backslash. -/
def quote (s : JStr) : JStr :=
  (s.map (fun c => if isMetaChar c then ['\\', c] else [c])).flatten

/-- Reads a regex source string that denotes a plain literal sequence of
characters: an escaped metacharacter (an ECMAScript IdentityEscape) denotes
that character, an unescaped non-metacharacter denotes itself, and any
unescaped metacharacter (which would have regex meaning) is rejected. -/
def parseLit : JStr → Option JStr
  | [] => some []
  | c :: rest =>
    if c = '\\' then
      match rest with
      | [] => none
      | d :: rest2 => if isMetaChar d then (parseLit rest2).map (d :: ·) else none
    else if isMetaChar c then none
    else (parseLit rest).map (c :: ·)

/-- Position of the first (leftmost) occurrence of `pat` in `text`, the match
position an ECMAScript regex engine finds for a literal pattern. -/
def firstMatchPos (pat : JStr) : JStr → Option Nat
  | [] => if pat.isPrefixOf ([] : JStr) then some 0 else none
  | c :: cs =>
    if pat.isPrefixOf (c :: cs) then some 0
    else (firstMatchPos pat cs).map (· + 1)

/-- Models `RegExp.prototype.test` for the regex `new RegExp(quote(pat), 'g')`
built by `pattern` (src/index.js:168-174).  Because the regex carries the `g`
flag, `test` starts searching at the regex's mutable `lastIndex` `li`,
advances `lastIndex` past a successful match, and resets it to `0` on
failure (ECMAScript `RegExpBuiltinExec`). -/
def litTest (pat : JStr) (text : JStr) (li : Nat) : Bool × Nat :=
  if li > text.length then (false, 0)
  else
    match firstMatchPos pat (text.drop li) with
    | some j => (true, li + j + pat.length)
    | none => (false, 0)

/-! ### The command regex `^/<quote(name)>(\s|$)` (src/index.js:210) -/

/-- Length of the match of the regex `^/<quote(name)>(\s|$)` at position 0 of
`text`, or `none` when it does not match there.  The alternation tries `\s`
first and `$` second, exactly as an ECMAScript engine does; `quote` makes the
name literal (see `parseLit_quote`). -/
def cmdPrefixLen (name : JStr) (text : JStr) : Option Nat :=
  if ('/' :: name).isPrefixOf text then
    match text.drop (name.length + 1) with
    | [] => some (name.length + 1)
    | c :: _ => if isJsSpace c then some (name.length + 2) else none
  else none

/-- Models `RegExp.prototype.test` for `new RegExp('^/'+quote(name)+'(\\s|$)', 'g')`
with mutable `lastIndex` `li`.  Since the pattern is anchored by `^` (and the
regex is not multiline or sticky), a match can only be found when the search
starts at `lastIndex = 0`; any other `lastIndex` makes every attempted
position fail, and a failed `test` resets `lastIndex` to `0`. -/
def cmdTest (name : JStr) (text : JStr) (li : Nat) : Bool × Nat :=
  if li = 0 then
    match cmdPrefixLen name text with
    | some len => (true, len)
    | none => (false, 0)
  else (false, 0)

/-- Models `text.replace(regex, '')` for the command regex (src/index.js:215).
`String.prototype.replace` with a `g` regex starts from position 0 regardless
of `lastIndex`, replaces every match, and leaves `lastIndex` at 0; the `^`
anchor makes a second match impossible, so exactly the matched prefix is
removed. -/
def cmdReplace (name : JStr) (text : JStr) : JStr :=
  match cmdPrefixLen name text with
  | some len => text.drop len
  | none => text

/-! ### `String.prototype.split` for the separators the source builds -/

/-- Models `String.prototype.split` with separator regex `/\s+/g`, scanning the
string once: `acc` is the (reversed) current token, the `inWs` flag records
that the previous character was part of a whitespace run. -/
def splitWsGo : JStr → Bool → JStr → List JStr
  | [], _, acc => [acc.reverse]
  | c :: cs, inWs, acc =>
    if isJsSpace c then
      if inWs then splitWsGo cs true acc
      else acc.reverse :: splitWsGo cs true []
    else splitWsGo cs false (c :: acc)

/-- Models `str.split(/\s+/g)` in ECMAScript: tokens between maximal whitespace runs;
a leading (trailing) run produces a leading (trailing) empty token, and
`"".split(/\s+/)` is `[""]` because the separator cannot match the empty
string. -/
def splitWs (s : JStr) : List JStr := splitWsGo s false []

/-- Models `str.split(sep)` where the separator is the empty regex
(`new RegExp(undefined, 'g')`, source `(?:)`): ECMAScript splits between every
character, and the empty string yields `[]`. -/
def splitEmpty (s : JStr) : List JStr := s.map (fun c => [c])

/-- The test `isPrefixOf` agrees with the existence of a completing suffix. -/
theorem isPrefixOf_iff_append (p : JStr) :
    ∀ t : JStr, p.isPrefixOf t = true ↔ ∃ r, t = p ++ r := by
  induction p with
  | nil =>
    intro t
    simp [List.isPrefixOf]
  | cons a as ih =>
    intro t
    cases t with
    | nil =>
      simp only [List.isPrefixOf]
      constructor
      · intro h; simp at h
      · rintro ⟨r, hr⟩; simp at hr
    | cons b bs =>
      simp only [List.isPrefixOf, Bool.and_eq_true, beq_iff_eq, ih bs, List.cons_append]
      constructor
      · rintro ⟨hab, r, hr⟩
        exact ⟨r, by rw [← hab, hr]⟩
      · rintro ⟨r, hr⟩
        injection hr with h1 h2
        exact ⟨h1.symm, r, h2⟩

/-- A found match position leaves room for the whole pattern. -/
theorem firstMatchPos_bound (pat : JStr) :
    ∀ (cs : JStr) (j : Nat), firstMatchPos pat cs = some j →
      j + pat.length ≤ cs.length := by
  intro cs
  induction cs with
  | nil =>
    intro j h
    by_cases hp : pat.isPrefixOf ([] : JStr) = true
    · simp only [firstMatchPos, hp, if_true] at h
      obtain ⟨r, hr⟩ := (isPrefixOf_iff_append pat []).mp hp
      obtain ⟨h1, h2⟩ := List.append_eq_nil.mp hr.symm
      injection h with h3
      subst h1
      omega
    · simp only [firstMatchPos] at h
      rw [if_neg hp] at h
      cases h
  | cons c cs ih =>
    intro j h
    simp only [firstMatchPos] at h
    by_cases hp : pat.isPrefixOf (c :: cs) = true
    · rw [if_pos hp] at h
      injection h with h3
      obtain ⟨r, hr⟩ := (isPrefixOf_iff_append _ _).mp hp
      have hl : (c :: cs).length = pat.length + r.length := by rw [hr, List.length_append]
      omega
    · rw [if_neg hp] at h
      cases hm : firstMatchPos pat cs with
      | none => rw [hm] at h; cases h
      | some j' =>
        rw [hm] at h
        have h' : j' + 1 = j := by simpa using h
        have hb := ih j' hm
        simp only [List.length_cons]
        omega

/-- Models `str.split(sep)` where the separator regex is the `quote`-escaped literal
string `hd :: tl` (nonempty): split at each leftmost occurrence;
`"".split(pat)` is `[""]` since a nonempty literal cannot match inside the
empty string. -/
def splitLitPos (hd : Char) (tl : JStr) (cs : JStr) : List JStr :=
  match h : firstMatchPos (hd :: tl) cs with
  | none => [cs]
  | some j => cs.take j :: splitLitPos hd tl (cs.drop (j + (hd :: tl).length))
termination_by cs.length
decreasing_by
  have hb := firstMatchPos_bound (hd :: tl) cs j h
  simp only [List.length_drop, List.length_cons]
  simp only [List.length_cons] at hb
  omega

/-- Models `str.split(sep)` for a `quote`-escaped literal string separator `pat`;
an empty `pat` gives the empty regex, splitting between every character. -/
def splitLit (pat : JStr) (cs : JStr) : List JStr :=
  match pat with
  | [] => splitEmpty cs
  | hd :: tl => splitLitPos hd tl cs

/-! ### `command` (src/index.js:195-217): overload resolution and respond -/

/-- The compiled separator regex `new RegExp(typeof sep === 'string' ?
quote(sep) : sep, 'g')` (src/index.js:209): a string separator is escaped into
a literal, the default `/\s+/` stays a whitespace-run matcher, and an
`undefined` separator yields `new RegExp(undefined, 'g')`, which ECMAScript
defines to be the EMPTY pattern `(?:)`. -/
inductive SepR
  | ws
  | empty
  | lit (s : JStr)
deriving DecidableEq

/-- Splitting of the argument text by each possible compiled separator. -/
def splitBySep : SepR → JStr → List JStr
  | .ws, s => splitWs s
  | .empty, s => splitEmpty s
  | .lit pat, s => splitLit pat s

/-- A JavaScript argument value as passed to `command` in one of the optional
slots (`desc`, `sep`, `respond`): `undefined` for an omitted argument, a
string, a callback function, or an array.  (`null` behaves as `undefined` in
the source's `== null` tests and is merged into `undefV`; RegExp-valued custom
separators are outside this model and are exercised by no claim, since the
only RegExp separator the module itself produces is the default `/\s+/`.) -/
inductive CArg
  | undefV
  | str (s : JStr)
  | fn
  | arr (xs : List JStr)
deriving DecidableEq

/-- The only JavaScript error the registration paths can raise in this model:
the `TypeError` from calling `.trim()` on a value with no such method
(`undefined`, a function, an array). -/
inductive CmdErr
  | typeError
deriving DecidableEq

/-- Models `desc.trim()` as executed at src/index.js:203/206: succeeds on strings and
throws a TypeError on any of the other modelled values. -/
def trimArg : CArg → Except CmdErr JStr
  | .str s => .ok (jsTrim s)
  | _ => .error .typeError

/-- The registration produced by a successful `command` call: the stored
feature description `/<name>` or `/<name> - <desc>` and the compiled
argument separator. -/
structure CommandFeature where
  desc : JStr
  sep : SepR
deriving DecidableEq

/-- Compilation of the value left in `sep` by the four-argument path
(src/index.js:209): a string is `quote`-escaped into a literal, `undefined`
becomes the empty pattern. -/
def sepOfArg : CArg → SepR
  | .str s => .lit s
  | _ => .empty

/-- Models the overload resolution and registration of
`module.exports.command(name, desc, sep, respond)` (src/index.js:195-213):

* `respond == null` and `sep == null` (two-argument call): `respond := desc`,
  `desc := ''` — and `sep` is left `undefined`, so the later
  `new RegExp(..., 'g')` compiles the EMPTY pattern, not `/\s+/`;
* `respond == null`, `sep != null` (three-argument call): `respond := sep`,
  `sep := /\s+/`, `desc := ' - ' + desc.trim()`;
* four-argument call: `desc := ' - ' + desc.trim()`, `sep` as passed.

The stored feature description is ``  `/${name}${desc}` ``. -/
def commandResolve (name : JStr) (desc sep respond : CArg) :
    Except CmdErr CommandFeature :=
  if respond = .undefV then
    if sep = .undefV then
      .ok ⟨'/' :: name, .empty⟩
    else
      (trimArg desc).map fun d =>
        ⟨'/' :: name ++ (' ' :: '-' :: ' ' :: d), .ws⟩
  else
    (trimArg desc).map fun d =>
      ⟨'/' :: name ++ (' ' :: '-' :: ' ' :: d), sepOfArg sep⟩

/-- The argument list handed to a command's `respond` callback
(src/index.js:215): `message.text.replace(regex, '').trim().split(sep)`,
for a given compiled separator. -/
def commandArgsWith (sep : SepR) (name : JStr) (text : JStr) : List JStr :=
  splitBySep sep (jsTrim (cmdReplace name text))

/-- The argument list for a command registered with the default whitespace
separator (the three- and four-argument call forms). -/
def commandArgs (name : JStr) (text : JStr) : List JStr :=
  commandArgsWith .ws name text

/-! ### `random` (src/index.js:234-244) -/

/-- A JavaScript argument value passed to `random` in one of its two optional
slots: `undefined`, a string description, a candidate array, or a
supplier function. -/
inductive RArg
  | undefV
  | str (s : JStr)
  | arr (xs : List JStr)
  | fn
deriving DecidableEq

/-- Embeds an `RArg` into the value universe of `command`'s parameters. -/
def cargOfR : RArg → CArg
  | .undefV => .undefV
  | .str s => .str s
  | .arr xs => .arr xs
  | .fn => .fn

/-- Models `module.exports.random(name, desc, supply)` (src/index.js:234-244):
when `supply == null` (two-argument call) the source shifts `supply := desc`
and sets `desc := undefined`, then always calls
`command(name, desc, () => send(...))` — a three-positional-argument call, so
inside `command` the respond slot is `undefined` and the separator slot holds
the callback. -/
def randomResolve (name : JStr) (desc supply : RArg) :
    Except CmdErr CommandFeature :=
  let descFinal := if supply = .undefV then RArg.undefV else desc
  commandResolve name (cargOfR descFinal) .fn .undefV

/-! ### `help` (src/index.js:251-255), `listen` sort (src/index.js:260-263) -/

/-- ECMAScript string comparison `a < b`: lexicographic by code unit. -/
def jstrLt : JStr → JStr → Bool
  | [], [] => false
  | [], _ :: _ => true
  | _ :: _, [] => false
  | a :: as, b :: bs =>
    if a.toNat < b.toNat then true
    else if b.toNat < a.toNat then false
    else jstrLt as bs

/-- Stable insertion of a description into an already-sorted list: the new
element goes after existing equal elements, matching the stability of
`Array.prototype.sort`. -/
def insertDesc (x : JStr) : List JStr → List JStr
  | [] => [x]
  | y :: ys => if jstrLt x y then x :: y :: ys else y :: insertDesc x ys

/-- Models the one-time `features.sort((a, b) => a.desc < b.desc ? -1 :
a.desc > b.desc ? 1 : 0)` performed by `listen` (src/index.js:261), restricted
to the description keys: a stable sort by ECMAScript string comparison. -/
def sortByDesc (l : List JStr) : List JStr :=
  l.foldl (fun acc x => insertDesc x acc) []

/-- Models `Array.prototype.join('\n')`. -/
def joinNl : List JStr → JStr
  | [] => []
  | [s] => s
  | s :: rest => s ++ '\n' :: joinNl rest

/-- Models the text sent by the `/help` responder (src/index.js:254) followed
by `send`'s `message.trim()` (src/index.js:83):
`features.map(f => f.desc).filter(d => d !== '').join('\n')`, trimmed. -/
def helpResponse (descs : List JStr) : JStr :=
  jsTrim (joinNl (descs.filter (fun d => !(d == []))))

/-! ### `use` (src/index.js:277-290) -/

/-- The own properties `module.exports` holds before any plugin is installed:
the entry points assigned in src/index.js. -/
def builtins : List JStr :=
  [js "config", js "send", js "feature", js "pattern", js "command",
   js "random", js "help", js "listen", js "use"]

/-- Models `module.exports.use(...plugins)` (src/index.js:277-290) acting on
the list of own property names: plugins are processed in order; a plugin
whose name is already a property throws (`Duplicate plugin name`) — but the
properties added for the plugins processed before it remain.  Returns the
final property list and the name the error was thrown for, if any. -/
def useRun : List JStr → List JStr → List JStr × Option JStr
  | props, [] => (props, none)
  | props, p :: ps =>
    if props.contains p then (props, some p)
    else useRun (props ++ [p]) ps

/-- Holds (as `true`) when installing the given plugin names in order from the given
property list raises no duplicate-name error. -/
def freshOk : List JStr → List JStr → Bool
  | _, [] => true
  | props, q :: qs => !props.contains q && freshOk (props ++ [q]) qs

/-! ### The dispatcher (src/index.js:41-45)

```
if (message['sender_type'] === 'user') {
  features
    .filter(feature => feature.check && feature.check(message))
    .forEach(feature => feature.respond(message))
}
```
`Array.prototype.filter` evaluates the predicate on every element first (in
order), building the matched array; only then does `forEach` run the
responders.  An exception thrown anywhere propagates out of the handler and
aborts the rest of the loop. -/

/-- An inbound GroupMe message as consumed by the dispatcher: only `text` and
`sender_type` are read by the core, every other field is opaque. -/
structure Message where
  text : JStr
  sender_type : JStr

/-- The value stored in a feature's `check` field: the `feature` constructor
can leave `undefined`, `null`, a string or a genuine predicate there. -/
inductive CheckVal
  | undefV
  | nullv
  | str (s : JStr)
  | fn (f : Message → Bool)

/-- A registered feature as the dispatcher sees it: its `check` field and the
behaviour of its `respond` callback (`fails m = true` when `respond` throws
on message `m`). -/
structure DFeature where
  check : CheckVal
  fails : Message → Bool

/-- Evaluation of the filter predicate
`feature.check && feature.check(message)`: a falsy `check` (`undefined`,
`null`, the empty string) short-circuits to `false`; a function is applied;
a truthy non-callable value (a nonempty string) is called and throws a
TypeError. -/
def evalCheck : CheckVal → Message → Except Unit Bool
  | .undefV, _ => .ok false
  | .nullv, _ => .ok false
  | .str [], _ => .ok false
  | .str (_ :: _), _ => .error ()
  | .fn f, m => .ok (f m)

/-- The boolean the filter predicate yields when it does not throw. -/
def passes (f : DFeature) (m : Message) : Bool :=
  match f.check with
  | .fn g => g m
  | _ => false

/-- Holds (as `true`) when the filter predicate cannot throw on this feature. -/
def checkSafe (f : DFeature) : Bool :=
  match f.check with
  | .str (_ :: _) => false
  | _ => true

/-- Holds (as `true`) when the feature's `check` field holds a callable. -/
def isFnCheck (f : DFeature) : Bool :=
  match f.check with
  | .fn _ => true
  | _ => false

/-- Models `features.filter(feature => feature.check && feature.check(message))`:
predicates run left to right; a throwing predicate aborts the whole filter. -/
def runFilter (m : Message) : List DFeature → Except Unit (List DFeature)
  | [] => .ok []
  | f :: fs =>
    match evalCheck f.check m with
    | .error e => .error e
    | .ok b => (runFilter m fs).map fun rest => if b then f :: rest else rest

/-- Models `matched.forEach(feature => feature.respond(message))`: responders run in
order; a throwing responder was still invoked, but aborts the remainder.
Returns the features whose `respond` was invoked and whether an exception
escaped. -/
def runResponders (m : Message) : List DFeature → List DFeature × Bool
  | [] => ([], false)
  | f :: fs =>
    if f.fails m then ([f], true)
    else
      let r := runResponders m fs
      (f :: r.1, r.2)

/-- The dispatch handler (src/index.js:41-45): messages whose `sender_type`
is not `"user"` invoke nothing; otherwise filter then forEach.  Returns the
features whose `respond` was invoked, in order, and whether an exception
escaped the handler. -/
def dispatch (fs : List DFeature) (m : Message) : List DFeature × Bool :=
  if m.sender_type = js "user" then
    match runFilter m fs with
    | .error _ => ([], true)
    | .ok matched => runResponders m matched
  else ([], false)

/-! ### `feature` (src/index.js:130-144): argument shifting -/

/-- A JavaScript value in one of `feature`'s three slots, with functions
identified by an opaque tag. -/
inductive JVal
  | undefV
  | nullv
  | str (s : JStr)
  | fnv (k : Nat)
deriving DecidableEq

/-- Models `x == null` (true for both `null` and `undefined`). -/
def isNullish : JVal → Bool
  | .undefV => true
  | .nullv => true
  | _ => false

/-- Models `module.exports.feature(desc, check, respond)` (src/index.js:130-144):
when `respond == null` the arguments shift (`respond := check`,
`check := desc`, `desc := ''`); the resulting record `(desc, check, respond)`
is pushed onto the registry unchecked — in particular a `null` or `undefined`
`check` can be stored. -/
def featureResolve (desc check respond : JVal) : JVal × JVal × JVal :=
  if isNullish respond then (.str [], desc, check)
  else (desc, check, respond)

/-! ### Lemmas about the escaped-literal regex -/

/-- Escaping is faithful: the regex source `quote s` reads back as the literal
character sequence `s` — every metacharacter has been escaped and is treated
literally. -/
theorem parseLit_quote : ∀ s : JStr, parseLit (quote s) = some s := by
  intro s
  induction s with
  | nil => rfl
  | cons c cs ih =>
    by_cases hm : isMetaChar c = true
    · have hq : quote (c :: cs) = '\\' :: c :: quote cs := by
        simp [quote, hm]
      rw [hq]
      simp [parseLit, hm, ih]
    · have hq : quote (c :: cs) = c :: quote cs := by
        simp [quote, hm]
      have hc : c ≠ '\\' := by
        intro e
        subst e
        simp [isMetaChar] at hm
      rw [hq, parseLit.eq_def]
      simp [hm, hc, ih]

/-- Soundness of the literal-match search: a found position decomposes the
text around an occurrence of the pattern. -/
theorem firstMatchPos_sound (pat : JStr) :
    ∀ (text : JStr) (j : Nat), firstMatchPos pat text = some j →
      ∃ pre post, text = pre ++ pat ++ post := by
  intro text
  induction text with
  | nil =>
    intro j h
    by_cases hp : pat.isPrefixOf ([] : JStr) = true
    · obtain ⟨r, hr⟩ := (isPrefixOf_iff_append pat []).mp hp
      exact ⟨[], r, hr⟩
    · simp only [firstMatchPos] at h
      rw [if_neg hp] at h
      cases h
  | cons c cs ih =>
    intro j h
    simp only [firstMatchPos] at h
    by_cases hp : pat.isPrefixOf (c :: cs) = true
    · obtain ⟨r, hr⟩ := (isPrefixOf_iff_append _ _).mp hp
      exact ⟨[], r, hr⟩
    · rw [if_neg hp] at h
      cases hm : firstMatchPos pat cs with
      | none => rw [hm] at h; cases h
      | some j' =>
        obtain ⟨pre, post, hd⟩ := ih j' hm
        exact ⟨c :: pre, post, by simp [hd]⟩

/-- A pattern that is a prefix of the text is found at position 0. -/
theorem firstMatchPos_of_isPre (pat t : JStr) (hp : pat.isPrefixOf t = true) :
    firstMatchPos pat t = some 0 := by
  cases t with
  | nil => simp [firstMatchPos, hp]
  | cons c cs => simp [firstMatchPos, hp]

/-- When the pattern is not a prefix, the search shifts one character. -/
theorem firstMatchPos_cons_neg (pat : JStr) (c : Char) (cs : JStr)
    (hp : ¬pat.isPrefixOf (c :: cs) = true) :
    firstMatchPos pat (c :: cs) = (firstMatchPos pat cs).map (· + 1) := by
  simp [firstMatchPos, hp]

/-- Completeness of the literal-match search: an occurrence of the pattern is
always found. -/
theorem firstMatchPos_complete (pat : JStr) :
    ∀ (pre post : JStr), (firstMatchPos pat (pre ++ pat ++ post)).isSome := by
  intro pre
  induction pre with
  | nil =>
    intro post
    have hp : pat.isPrefixOf (pat ++ post) = true :=
      (isPrefixOf_iff_append pat (pat ++ post)).mpr ⟨post, rfl⟩
    rw [List.nil_append, firstMatchPos_of_isPre pat _ hp]
    rfl
  | cons c pre ih =>
    intro post
    have hsh : (c :: pre) ++ pat ++ post = c :: (pre ++ pat ++ post) := by
      simp
    rw [hsh]
    by_cases hp : pat.isPrefixOf (c :: (pre ++ pat ++ post)) = true
    · rw [firstMatchPos_of_isPre pat _ hp]; rfl
    · rw [firstMatchPos_cons_neg pat _ _ hp]
      have := ih post
      cases hm : firstMatchPos pat (pre ++ pat ++ post) with
      | none => rw [hm] at this; cases this
      | some j => simp

/-- From the regex's initial state (`lastIndex = 0`), the escaped-literal
`test` succeeds exactly on texts containing the literal as a substring. -/
theorem litTest_substring (pat text : JStr) :
    (litTest pat text 0).1 = true ↔ ∃ pre post, text = pre ++ pat ++ post := by
  constructor
  · intro h
    simp only [litTest] at h
    rw [if_neg (Nat.not_lt_zero text.length), List.drop_zero] at h
    cases hm : firstMatchPos pat text with
    | none => rw [hm] at h; cases h
    | some j => exact firstMatchPos_sound pat text j hm
  · rintro ⟨pre, post, rfl⟩
    have hs := firstMatchPos_complete pat pre post
    simp only [litTest]
    rw [if_neg (Nat.not_lt_zero _), List.drop_zero]
    cases hm : firstMatchPos pat (pre ++ pat ++ post) with
    | none => rw [hm] at hs; cases hs
    | some j => rfl

/-! ### Lemmas about the dispatcher -/

/-- A non-throwing filter predicate evaluates to `passes`. -/
theorem evalCheck_safe (f : DFeature) (m : Message) (h : checkSafe f = true) :
    evalCheck f.check m = .ok (passes f m) := by
  cases hc : f.check with
  | undefV => simp [evalCheck, passes, hc]
  | nullv => simp [evalCheck, passes, hc]
  | fn g => simp [evalCheck, passes, hc]
  | str s =>
    cases s with
    | nil => simp [evalCheck, passes, hc]
    | cons a as =>
      exfalso
      simp [checkSafe, hc] at h

/-- A successful filter predicate evaluation yields `passes`. -/
theorem evalCheck_ok_val (f : DFeature) (m : Message) (b : Bool)
    (h : evalCheck f.check m = .ok b) : b = passes f m := by
  cases hc : f.check with
  | undefV => rw [hc] at h; injection h with h'; simp [passes, hc, ← h']
  | nullv => rw [hc] at h; injection h with h'; simp [passes, hc, ← h']
  | fn g => rw [hc] at h; injection h with h'; simp [passes, hc, ← h']
  | str s =>
    cases s with
    | nil => rw [hc] at h; injection h with h'; simp [passes, hc, ← h']
    | cons a as => rw [hc] at h; cases h

/-- When no filter predicate can throw, the filter returns exactly the
features whose `check` is true, in order. -/
theorem runFilter_safe (m : Message) :
    ∀ fs : List DFeature, (∀ f ∈ fs, checkSafe f = true) →
      runFilter m fs = .ok (fs.filter (fun f => passes f m)) := by
  intro fs
  induction fs with
  | nil => intro _; rfl
  | cons f fs ih =>
    intro h
    have hf := h f (List.mem_cons_self f fs)
    have hrest := ih fun g hg => h g (List.mem_cons_of_mem f hg)
    simp only [runFilter, evalCheck_safe f m hf, hrest, Except.map,
      List.filter_cons]

/-- Every feature the filter returns has a true `check`. -/
theorem runFilter_mem (m : Message) :
    ∀ (fs l : List DFeature), runFilter m fs = .ok l →
      ∀ g ∈ l, passes g m = true := by
  intro fs
  induction fs with
  | nil =>
    intro l h g hg
    injection h with h'
    subst h'
    cases hg
  | cons f fs ih =>
    intro l h g hg
    simp only [runFilter] at h
    cases he : evalCheck f.check m with
    | error e => rw [he] at h; cases h
    | ok b =>
      rw [he] at h
      cases hr : runFilter m fs with
      | error e => rw [hr] at h; cases h
      | ok l' =>
        rw [hr] at h
        simp only [Except.map] at h
        injection h with h'
        have hb := evalCheck_ok_val f m b he
        by_cases hbv : b = true
        · rw [if_pos hbv] at h'
          subst h'
          cases hg with
          | head => rw [← hb]; exact hbv
          | tail _ hg' => exact ih l' hr g hg'
        · rw [if_neg hbv] at h'
          subst h'
          exact ih l' hr g hg

/-- Responders that all return normally are each invoked, in order, with no
escaping exception. -/
theorem runResponders_total (m : Message) :
    ∀ l : List DFeature, (∀ f ∈ l, f.fails m = false) →
      runResponders m l = (l, false) := by
  intro l
  induction l with
  | nil => intro _; rfl
  | cons f fs ih =>
    intro h
    have hf := h f (List.mem_cons_self f fs)
    simp only [runResponders, hf, Bool.false_eq_true, if_false,
      ih fun g hg => h g (List.mem_cons_of_mem f hg)]

/-- A throwing responder aborts the loop: exactly the responders up to and
including the throwing one are invoked, and the exception escapes. -/
theorem runResponders_abort (m : Message) (f : DFeature)
    (hf : f.fails m = true) :
    ∀ (pre post : List DFeature), (∀ g ∈ pre, g.fails m = false) →
      runResponders m (pre ++ f :: post) = (pre ++ [f], true) := by
  intro pre
  induction pre with
  | nil =>
    intro post _
    simp [runResponders, hf]
  | cons g pre ih =>
    intro post h
    have hg := h g (List.mem_cons_self g pre)
    have hih := ih post fun g' hg' => h g' (List.mem_cons_of_mem g hg')
    calc runResponders m ((g :: pre) ++ f :: post)
        = runResponders m (g :: (pre ++ f :: post)) := rfl
      _ = (g :: (runResponders m (pre ++ f :: post)).1,
            (runResponders m (pre ++ f :: post)).2) := by
          simp [runResponders, hg]
      _ = (g :: (pre ++ [f]), true) := by rw [hih]
      _ = ((g :: pre) ++ [f], true) := rfl

/-- Only features handed to `forEach` can have their responder invoked. -/
theorem runResponders_mem (m : Message) :
    ∀ (l : List DFeature) (g : DFeature), g ∈ (runResponders m l).1 → g ∈ l := by
  intro l
  induction l with
  | nil => intro g hg; cases hg
  | cons f fs ih =>
    intro g hg
    simp only [runResponders] at hg
    by_cases hf : f.fails m = true
    · rw [if_pos hf] at hg
      cases hg with
      | head => exact List.mem_cons_self f fs
      | tail _ h' => cases h'
    · rw [if_neg hf] at hg
      cases hg with
      | head => exact List.mem_cons_self f fs
      | tail _ h' => exact List.mem_cons_of_mem f (ih g h')

/-- A true `check` outcome requires a callable `check` field. -/
theorem passes_isFnCheck (g : DFeature) (m : Message)
    (h : passes g m = true) : isFnCheck g = true := by
  unfold passes at h
  unfold isFnCheck
  cases hc : g.check with
  | fn f => rfl
  | undefV => rw [hc] at h; exact h
  | nullv => rw [hc] at h; exact h
  | str s => rw [hc] at h; exact h

/-! Lemmas about plugin installation -/

/-- Installing only fresh plugin names appends them all and throws nothing. -/
theorem useRun_fresh :
    ∀ (ps props : List JStr), freshOk props ps = true →
      useRun props ps = (props ++ ps, none) := by
  intro ps
  induction ps with
  | nil =>
    intro props _
    simp [useRun]
  | cons q qs ih =>
    intro props h
    simp only [freshOk, Bool.and_eq_true, Bool.not_eq_true'] at h
    obtain ⟨h1, h2⟩ := h
    simp only [useRun, h1, Bool.false_eq_true, if_false]
    rw [ih (props ++ [q]) h2]
    simp

/-- The first colliding plugin name throws, with exactly the plugins
preceding it installed. -/
theorem useRun_collision :
    ∀ (pre props : List JStr) (p : JStr) (post : List JStr),
      freshOk props pre = true → (props ++ pre).contains p = true →
      useRun props (pre ++ p :: post) = (props ++ pre, some p) := by
  intro pre
  induction pre with
  | nil =>
    intro props p post _ hc
    rw [List.append_nil] at hc
    show (if props.contains p then (props, some p)
      else useRun (props ++ [p]) post) = (props ++ [], some p)
    rw [if_pos hc, List.append_nil]
  | cons q pre ih =>
    intro props p post hf hc
    simp only [freshOk, Bool.and_eq_true, Bool.not_eq_true'] at hf
    obtain ⟨h1, h2⟩ := hf
    have hc' : ((props ++ [q]) ++ pre).contains p = true := by
      rw [List.append_assoc]
      simpa using hc
    have hstep : useRun props ((q :: pre) ++ p :: post)
        = useRun (props ++ [q]) (pre ++ p :: post) := by
      show (if props.contains q then (props, some q)
        else useRun (props ++ [q]) (pre ++ p :: post)) = _
      rw [if_neg (show ¬props.contains q = true from
        fun hq => by rw [hq] at h1; cases h1)]
    rw [hstep, ih (props ++ [q]) p post h2 hc']
    simp

/-! Concrete fixtures used by counterexamples and witnesses -/

/-- A user message, as delivered by the webhook. -/
def cmsg : Message := ⟨js "hi", js "user"⟩

/-- A feature that matches every message and responds normally. -/
def cfOk : DFeature := ⟨.fn fun _ => true, fun _ => false⟩

/-- A feature that matches no message. -/
def cfNo : DFeature := ⟨.fn fun _ => false, fun _ => false⟩

/-- A feature that matches every message and whose responder throws. -/
def cfBad : DFeature := ⟨.fn fun _ => true, fun _ => true⟩

/-- A feature whose `check` field is `null`. -/
def cfNull : DFeature := ⟨.nullv, fun _ => false⟩

/-! Claim theorems -/

/-- C1 (counterexample): the claim that a throwing responder does not abort
dispatch of subsequently matched features is FALSE.  With two features that
both match the user message `cmsg` (the filter returns both), the first
feature's throwing responder makes dispatch invoke only that first feature
— `cfOk`, though matched, is never responded to — and the exception escapes
the handler. -/
theorem c1_responder_abort_cex :
    runFilter cmsg [cfBad, cfOk] = .ok [cfBad, cfOk] ∧
    dispatch [cfBad, cfOk] cmsg = ([cfBad], true) :=
  ⟨rfl, rfl⟩

/-- C1 (amended): an exception thrown inside a matched feature's `respond`
propagates out of the dispatch handler and ABORTS the dispatch: responders of
features matched after the throwing one are not invoked (every `check` has
already been evaluated, because `filter` completes before `forEach` begins);
exactly the matched features up to and including the throwing one have their
responder invoked. -/
theorem c1_responder_abort (fs pre post : List DFeature) (f : DFeature)
    (m : Message)
    (h0 : m.sender_type = js "user")
    (h1 : runFilter m fs = .ok (pre ++ f :: post))
    (h2 : ∀ g ∈ pre, g.fails m = false)
    (h3 : f.fails m = true) :
    dispatch fs m = (pre ++ [f], true) := by
  unfold dispatch
  rw [if_pos h0, h1]
  exact runResponders_abort m f h3 pre post h2

/-- Witness for `c1_responder_abort` at a concrete input: a well-behaved
matched feature followed by a throwing one. -/
theorem c1_responder_abort_witness :
    dispatch [cfOk, cfBad] cmsg = ([cfOk] ++ [cfBad], true) :=
  c1_responder_abort [cfOk, cfBad] [cfOk] [] cfBad cmsg rfl rfl
    (fun g hg => by
      rcases List.mem_cons.mp hg with h | h
      · subst h; rfl
      · cases h)
    rfl

/-- C2: a message whose `sender_type` is not `"user"` invokes zero
responders; on a `"user"` message, for features whose `check` fields are
predicates that cannot throw and whose responders return normally, `respond`
is invoked exactly once on each feature whose `check` returns true, in
registry order (the invocation list IS the registry filtered by `check`,
which also gives the occurrence-count characterisation), and never on a
feature whose `check` returns false. -/
theorem c2_dispatch_matching (fs : List DFeature) (m : Message) :
    (m.sender_type ≠ js "user" → dispatch fs m = ([], false)) ∧
    (m.sender_type = js "user" →
      (∀ f ∈ fs, checkSafe f = true) →
      (∀ f ∈ fs, f.fails m = false) →
      (dispatch fs m).2 = false ∧
      (dispatch fs m).1 = fs.filter (fun f => passes f m) ∧
      ∀ p : DFeature → Bool,
        ((dispatch fs m).1).countP p
          = fs.countP (fun f => p f && passes f m)) := by
  constructor
  · intro h
    unfold dispatch
    rw [if_neg h]
  · intro h hsafe hfail
    have h1 : dispatch fs m = (fs.filter (fun f => passes f m), false) := by
      unfold dispatch
      rw [if_pos h, runFilter_safe m fs hsafe]
      exact runResponders_total m _
        (fun f hf => hfail f (List.mem_of_mem_filter hf))
    refine ⟨by rw [h1], by rw [h1], ?_⟩
    intro p
    rw [h1]
    exact List.countP_filter _ _ _

/-- Witness for `c2_dispatch_matching` at a concrete input: one matching and
one non-matching feature, neither throwing. -/
theorem c2_dispatch_matching_witness :
    (dispatch [cfOk, cfNo] cmsg).2 = false ∧
    (dispatch [cfOk, cfNo] cmsg).1 = [cfOk, cfNo].filter (fun f => passes f cmsg) := by
  have h := (c2_dispatch_matching [cfOk, cfNo] cmsg).2 rfl
    (fun f hf => by
      rcases List.mem_cons.mp hf with h | hf2
      · subst h; rfl
      · rcases List.mem_cons.mp hf2 with h | h3
        · subst h; rfl
        · cases h3)
    (fun f hf => by
      rcases List.mem_cons.mp hf with h | hf2
      · subst h; rfl
      · rcases List.mem_cons.mp hf2 with h | h3
        · subst h; rfl
        · cases h3)
  exact ⟨h.1, h.2.1⟩

/-- C10: a registered feature whose `check` field is `null` or `undefined`
(storable through the `feature` constructor, as the last conjunct shows) is
skipped by dispatch for every message: only features with a callable `check`
can ever have their responder invoked, and evaluating the guarded filter
predicate `feature.check && feature.check(message)` on a nullish `check`
yields `false` without raising an error. -/
theorem c10_null_check_skipped (fs : List DFeature) (m : Message) :
    (∀ g ∈ (dispatch fs m).1, isFnCheck g = true) ∧
    (∀ m' : Message,
      evalCheck .nullv m' = .ok false ∧ evalCheck .undefV m' = .ok false) ∧
    (featureResolve (.str (js "d")) .nullv (.fnv 0)).2.1 = .nullv := by
  refine ⟨?_, fun m' => ⟨rfl, rfl⟩, rfl⟩
  intro g hg
  unfold dispatch at hg
  by_cases hs : m.sender_type = js "user"
  · rw [if_pos hs] at hg
    cases hr : runFilter m fs with
    | error e => rw [hr] at hg; cases hg
    | ok l =>
      rw [hr] at hg
      exact passes_isFnCheck g m
        (runFilter_mem m fs l hr g (runResponders_mem m l g hg))
  · rw [if_neg hs] at hg
    cases hg

/-- Witness for `c10_null_check_skipped` at a concrete input: dispatching to
a null-check feature and an ordinary one. -/
theorem c10_null_check_skipped_witness : isFnCheck cfOk = true :=
  (c10_null_check_skipped [cfNull, cfOk] cmsg).1 cfOk (by
    show cfOk ∈ [cfOk]
    exact List.mem_cons_self cfOk [])

/-- C8: a command's `check` fires only on texts that begin with `/<name>`
followed by a whitespace character or end of string — whatever the regex's
`lastIndex` state is, a true `test` guarantees that shape — and (from the
regex's initial state) a command named `ban` matches `/ban` and
`/ban extra text` but never `/banana`, at any `lastIndex`. -/
theorem c8_command_check (name text : JStr) (li : Nat) :
    ((cmdTest name text li).1 = true →
      ∃ rest, text = '/' :: (name ++ rest) ∧
        (rest = [] ∨ ∃ c rs, rest = c :: rs ∧ isJsSpace c = true)) ∧
    (∀ li' : Nat, (cmdTest (js "ban") (js "/banana") li').1 = false) ∧
    (cmdTest (js "ban") (js "/ban") 0).1 = true ∧
    (cmdTest (js "ban") (js "/ban extra text") 0).1 = true := by
  refine ⟨?_, ?_, by decide, by decide⟩
  · intro h
    unfold cmdTest at h
    by_cases hli : li = 0
    · rw [if_pos hli] at h
      cases hp : cmdPrefixLen name text with
      | none => rw [hp] at h; exact absurd h (by decide)
      | some len =>
        unfold cmdPrefixLen at hp
        by_cases hpre : ('/' :: name).isPrefixOf text = true
        · obtain ⟨r, hr⟩ := (isPrefixOf_iff_append _ _).mp hpre
          refine ⟨r, hr, ?_⟩
          rw [if_pos hpre] at hp
          have hdrop : text.drop (name.length + 1) = r := by
            rw [hr]
            have hl : ('/' :: name).length = name.length + 1 := by simp
            rw [← hl, List.drop_left]
          rw [hdrop] at hp
          cases r with
          | nil => exact Or.inl rfl
          | cons c rs =>
            right
            refine ⟨c, rs, rfl, ?_⟩
            cases hws : isJsSpace c with
            | true => rfl
            | false => simp [hws] at hp
        · rw [if_neg hpre] at hp
          cases hp
    · rw [if_neg hli] at h
      exact absurd h (by decide)
  · intro li'
    unfold cmdTest
    by_cases hli : li' = 0
    · rw [if_pos hli]
      have hb : cmdPrefixLen (js "ban") (js "/banana") = none := by decide
      rw [hb]
    · rw [if_neg hli]

/-- Witness for `c8_command_check` at a concrete input: the soundness
implication applied to the matching text `/ban extra text` in the initial
regex state. -/
theorem c8_command_check_witness :
    ∃ rest, js "/ban extra text" = '/' :: (js "ban" ++ rest) ∧
      (rest = [] ∨ ∃ c rs, rest = c :: rs ∧ isJsSpace c = true) :=
  (c8_command_check (js "ban") (js "/ban extra text") 0).1 (by decide)

/-- C9 (counterexample): the claim that a literal pattern's `check` gives the
same answer on every invocation for the same message is FALSE.  The pattern
regex is created with the `g` flag and shared by every invocation, so a
successful `test` advances its `lastIndex`: checking the text `a.b` against
the literal pattern `a.b` succeeds and moves `lastIndex` to 3, and the very
next check of the SAME text returns `false` (even though the literal still
occurs as a substring) while resetting `lastIndex`. -/
theorem c9_pattern_stateful_cex :
    litTest (js "a.b") (js "a.b") 0 = (true, 3) ∧
    litTest (js "a.b") (js "a.b") 3 = (false, 0) := by
  exact ⟨by decide, by decide⟩

/-- C9 (amended): `quote` escapes every regex metacharacter so the pattern
source reads back as the literal character sequence, and from the regex's
initial state (`lastIndex = 0`) the derived `check` returns true exactly when
the literal occurs as a substring of the text — in particular the literal
`a.b` matches the text `xa.bz` and does not match `axb`.  However, because
the regex is global and stateful, this answer is only guaranteed from
`lastIndex = 0`: a successful check advances `lastIndex` and the immediately
repeated check on the same message can return false (see the
counterexample). -/
theorem c9_pattern_literal (s pat text : JStr) :
    parseLit (quote s) = some s ∧
    ((litTest pat text 0).1 = true ↔ ∃ pre post, text = pre ++ pat ++ post) ∧
    (litTest (js "a.b") (js "xa.bz") 0).1 = true ∧
    (litTest (js "a.b") (js "axb") 0).1 = false :=
  ⟨parseLit_quote s, litTest_substring pat text, by decide, by decide⟩

/-- C3 (amended): a command's `respond` receives the text with the leading
`/<name>` token (and the single whitespace character consumed by the regex)
stripped, trimmed, and split on the default whitespace separator; stripping
`/<name><ws>` leaves exactly the remainder, so `/ban extra text` yields
`["extra", "text"]` — but when NO text remains after the command token the
argument list is `[""]` (a singleton empty string, because in ECMAScript
`"".split(/\s+/)` is `[""]`), not the empty array. -/
theorem c3_command_args (name rest : JStr) (c : Char)
    (hws : isJsSpace c = true) :
    commandArgs name ('/' :: (name ++ c :: rest)) = splitWs (jsTrim rest) ∧
    commandArgs name ('/' :: name) = [[]] ∧
    commandArgs (js "ban") (js "/ban extra text") = [js "extra", js "text"] := by
  refine ⟨?_, ?_, by decide⟩
  · have htext : '/' :: (name ++ c :: rest) = ('/' :: name) ++ c :: rest := rfl
    have hpre : ('/' :: name).isPrefixOf ('/' :: (name ++ c :: rest)) = true :=
      (isPrefixOf_iff_append _ _).mpr ⟨c :: rest, htext⟩
    have hlen1 : ('/' :: name).length = name.length + 1 := by simp
    have hdrop1 : ('/' :: (name ++ c :: rest)).drop (name.length + 1)
        = c :: rest := by
      rw [htext, ← hlen1, List.drop_left]
    have hplen : cmdPrefixLen name ('/' :: (name ++ c :: rest))
        = some (name.length + 2) := by
      unfold cmdPrefixLen
      rw [if_pos hpre, hdrop1]
      simp [hws]
    have htext2 : '/' :: (name ++ c :: rest) = (('/' :: name) ++ [c]) ++ rest := by
      simp
    have hlen2 : (('/' :: name) ++ [c]).length = name.length + 2 := by simp
    have hrepl : cmdReplace name ('/' :: (name ++ c :: rest)) = rest := by
      unfold cmdReplace
      rw [hplen]
      show ('/' :: (name ++ c :: rest)).drop (name.length + 2) = rest
      rw [htext2, ← hlen2, List.drop_left]
    unfold commandArgs commandArgsWith
    rw [hrepl]
    rfl
  · have hpre : ('/' :: name).isPrefixOf ('/' :: name) = true :=
      (isPrefixOf_iff_append _ _).mpr ⟨[], by simp⟩
    have hlen1 : ('/' :: name).length = name.length + 1 := by simp
    have hdrop : ('/' :: name).drop (name.length + 1) = ([] : JStr) := by
      rw [← hlen1, List.drop_length]
    have hplen : cmdPrefixLen name ('/' :: name) = some (name.length + 1) := by
      unfold cmdPrefixLen
      rw [if_pos hpre, hdrop]
    have hrepl : cmdReplace name ('/' :: name) = ([] : JStr) := by
      unfold cmdReplace
      rw [hplen]
      show ('/' :: name).drop (name.length + 1) = ([] : JStr)
      rw [← hlen1, List.drop_length]
    unfold commandArgs commandArgsWith
    rw [hrepl]
    rfl

/-- Witness for `c3_command_args` at a concrete input: the general stripping
equation applied to `/ban x y` (space as the consumed whitespace). -/
theorem c3_command_args_witness :
    commandArgs (js "ban") ('/' :: (js "ban" ++ ' ' :: js "x y"))
      = splitWs (jsTrim (js "x y")) :=
  (c3_command_args (js "ban") (js "x y") ' ' (by decide)).1

/-- C3 (counterexample): the claim that no remaining text yields the EMPTY
argument list is FALSE: `/ban` routed to the command `ban` (with the default
whitespace separator) produces the one-element list `[""]`. -/
theorem c3_empty_args_cex :
    commandArgs (js "ban") (js "/ban") = [([] : JStr)] ∧
    [([] : JStr)] ≠ ([] : List JStr) := by
  exact ⟨by decide, by decide⟩

/-- C4 (code bug): in the two-argument call `command(name, respond)` the
source shifts `respond := desc` and `desc := ''` but never assigns the
default `/\s+/` to `sep`, so `new RegExp(undefined, 'g')` compiles the EMPTY
pattern.  The registered description is `/<name>` as documented, but the
remaining text of `/ban extra text` is split between every character —
`["e","x","t","r","a"," ","t","e","x","t"]` — instead of the whitespace split
`["extra","text"]` that the three-argument form
`command(name, description, respond)` performs. -/
theorem c4_twoarg_separator :
    commandResolve (js "ban") .fn .undefV .undefV = .ok ⟨js "/ban", .empty⟩ ∧
    commandArgsWith .empty (js "ban") (js "/ban extra text")
      = [['e'], ['x'], ['t'], ['r'], ['a'], [' '], ['t'], ['e'], ['x'], ['t']] ∧
    commandResolve (js "ban") (.str (js "desc")) .fn .undefV
      = .ok ⟨js "/ban - desc", .ws⟩ ∧
    commandArgsWith .ws (js "ban") (js "/ban extra text")
      = [js "extra", js "text"] := by
  refine ⟨rfl, by decide, rfl, by decide⟩

/-- C5 (code bug): calling `random` with the description omitted does NOT
complete: `random(name, supply)` shifts `supply := desc` and sets
`desc := undefined`, then delegates to `command(name, undefined, callback)`,
whose three-argument branch evaluates `undefined.trim()` and throws a
TypeError before anything is registered.  The form with a description
(second conjunct) registers the command normally. -/
theorem c5_random_twoarg_throws :
    randomResolve (js "roll") (.arr [js "x", js "y", js "z"]) .undefV
      = .error .typeError ∧
    randomResolve (js "roll") (.str (js "d")) (.arr [js "x"])
      = .ok ⟨js "/roll - d", .ws⟩ :=
  ⟨rfl, rfl⟩

/-- C6 (counterexample): the claim that a colliding `use` call installs NO
plugin is FALSE.  In `use(p1, p2)` where only `p2`'s name collides (here with
the built-in `send`), the error is thrown — but `p1` (named `greet`) has
already been installed, so the public API is NOT left unchanged. -/
theorem c6_partial_install_cex :
    useRun builtins [js "greet", js "send"]
      = (builtins ++ [js "greet"], some (js "send")) ∧
    builtins ++ [js "greet"] ≠ builtins := by
  exact ⟨by decide, by decide⟩

/-- C6 (amended): `use` checks each plugin name in order against the current
own properties (built-ins, previously installed plugins, and plugins earlier
in the same call); a collision-free call installs every plugin and raises no
error, while a call whose first collision is at plugin `p` raises the error
synchronously there, installing exactly the plugins preceding `p` in the call
— partial installation occurs whenever the colliding plugin is not first. -/
theorem c6_use_collision (props pre post ps : List JStr) (p : JStr)
    (h1 : freshOk props ps = true)
    (h2 : freshOk props pre = true)
    (h3 : (props ++ pre).contains p = true) :
    useRun props ps = (props ++ ps, none) ∧
    useRun props (pre ++ p :: post) = (props ++ pre, some p) :=
  ⟨useRun_fresh ps props h1, useRun_collision pre props p post h2 h3⟩

/-- Witness for `c6_use_collision` at a concrete input: a fresh plugin
`alpha`, and a call `[beta, help, x]` whose second plugin collides with the
built-in `help`. -/
theorem c6_use_collision_witness :
    useRun builtins [js "alpha"] = (builtins ++ [js "alpha"], none) ∧
    useRun builtins ([js "beta"] ++ (js "help") :: [js "x"])
      = (builtins ++ [js "beta"], some (js "help")) :=
  c6_use_collision builtins [js "beta"] [js "x"] [js "alpha"] (js "help")
    (by decide) (by decide) (by decide)

/-- C7 (counterexample): the claim that the `/help` response for registered
descriptions `"b"`, `""`, `"a"` equals `"a\nb"` is FALSE: `help()` itself
registers a feature whose description is
`/help - Displays help information about the bot.` (first conjunct, computed
by the source's own `command` registration), that description is non-empty,
so after the listen-time sort the newline-joined listing of non-empty
descriptions includes it. -/
theorem c7_help_listing_cex :
    commandResolve (js "help")
        (.str (js "Displays help information about the bot.")) .fn .undefV
      = .ok ⟨js "/help - Displays help information about the bot.", .ws⟩ ∧
    helpResponse (sortByDesc [js "b", [], js "a",
        js "/help - Displays help information about the bot."])
      ≠ js "a\nb" := by
  exact ⟨rfl, by decide⟩

/-- C7 (amended): with features `"b"`, `""`, `"a"` registered together with
the help command, the `/help` message matches the help command's `check`, and
the response text is the newline-joined listing of ALL non-empty descriptions
in sorted order — the help command's own description included and sorted
first (`/` precedes letters):
`"/help - Displays help information about the bot.\na\nb"`.  The empty
description is excluded. -/
theorem c7_help_listing :
    (cmdTest (js "help") (js "/help") 0).1 = true ∧
    helpResponse (sortByDesc [js "b", [], js "a",
        js "/help - Displays help information about the bot."])
      = js "/help - Displays help information about the bot.\na\nb" := by
  exact ⟨by decide, by decide⟩

end GroupmeBot
